import Mathlib

/-!
Verification of the virtio-9pd driver (9P2000.L client, scheme adapter and
device bring-up) against its natural-language specification.  The Rust
sources embedded here are `src/drivers/fs/virtio-9pd/src/protocol.rs`,
`client.rs`, `scheme.rs` and `main.rs`.  Machine integers are modelled as
`Nat` with explicit truncation (`% 256`, `% 2 ^ 32`, ...) where the Rust
types force it; byte buffers are `List Nat`; fallible Rust code returns
`Option` or `Except`.
-/

namespace P9

/-- Little-endian byte encoding of `v` into `n` bytes, as produced by the
Rust `to_le_bytes` calls on `uN` values (each byte is the next base-256
digit). -/
def leBytes : Nat → Nat → List Nat
  | 0, _ => []
  | n + 1, v => v % 256 :: leBytes n (v / 256)

/-- Little-endian byte decoding, as computed by the Rust `from_le_bytes`
calls.  Each element is reduced `% 256` because the Rust buffers hold `u8`
values. -/
def leToNat : List Nat → Nat
  | [] => 0
  | b :: bs => b % 256 + 256 * leToNat bs

@[simp] theorem leBytes_length (n v : Nat) : (leBytes n v).length = n := by
  induction n generalizing v with
  | zero => rfl
  | succ n ih => simp [leBytes, ih]

theorem leToNat_leBytes (n v : Nat) : leToNat (leBytes n v) = v % 256 ^ n := by
  induction n generalizing v with
  | zero => simp [leBytes, leToNat, Nat.mod_one]
  | succ n ih =>
    have e1 : (256 : Nat) ^ (n + 1) = 256 * 256 ^ n := by rw [pow_succ]; ring
    have e2 : v % (256 * 256 ^ n) / 256 = v / 256 % 256 ^ n :=
      Nat.mod_mul_right_div_self v 256 (256 ^ n)
    have e3 : v % (256 * 256 ^ n) % 256 = v % 256 :=
      Nat.mod_mod_of_dvd v ⟨256 ^ n, rfl⟩
    have e4 := Nat.div_add_mod (v % (256 * 256 ^ n)) 256
    simp only [leBytes, leToNat, ih, Nat.mod_mod_of_dvd, e1]
    have e5 : v % 256 % 256 = v % 256 := Nat.mod_mod_of_dvd v dvd_rfl
    omega

theorem leToNat_leBytes_of_lt {n v : Nat} (h : v < 256 ^ n) :
    leToNat (leBytes n v) = v := by
  rw [leToNat_leBytes, Nat.mod_eq_of_lt h]

/-- One byte of a multi-byte UTF-8 sequence must lie in `0x80..=0xBF`.
Mirrors the continuation-byte check of `core::str::from_utf8`. -/
def isCont (b : Nat) : Bool := 0x80 ≤ b && b ≤ 0xBF

/-- UTF-8 validity of a byte sequence, as decided by
`core::str::from_utf8` (RFC 3629 shortest-form encoding, surrogates and
values above U+10FFFF rejected). -/
def utf8Ok : List Nat → Bool
  | [] => true
  | b :: rest =>
    if b ≤ 0x7F then utf8Ok rest
    else if 0xC2 ≤ b && b ≤ 0xDF then
      match rest with
      | c1 :: r => isCont c1 && utf8Ok r
      | [] => false
    else if b = 0xE0 then
      match rest with
      | c1 :: c2 :: r => (0xA0 ≤ c1 && c1 ≤ 0xBF) && isCont c2 && utf8Ok r
      | _ => false
    else if b = 0xED then
      match rest with
      | c1 :: c2 :: r => (0x80 ≤ c1 && c1 ≤ 0x9F) && isCont c2 && utf8Ok r
      | _ => false
    else if (0xE1 ≤ b && b ≤ 0xEC) || (0xEE ≤ b && b ≤ 0xEF) then
      match rest with
      | c1 :: c2 :: r => isCont c1 && isCont c2 && utf8Ok r
      | _ => false
    else if b = 0xF0 then
      match rest with
      | c1 :: c2 :: c3 :: r => (0x90 ≤ c1 && c1 ≤ 0xBF) && isCont c2 && isCont c3 && utf8Ok r
      | _ => false
    else if 0xF1 ≤ b && b ≤ 0xF3 then
      match rest with
      | c1 :: c2 :: c3 :: r => isCont c1 && isCont c2 && isCont c3 && utf8Ok r
      | _ => false
    else if b = 0xF4 then
      match rest with
      | c1 :: c2 :: c3 :: r => (0x80 ≤ c1 && c1 ≤ 0x8F) && isCont c2 && isCont c3 && utf8Ok r
      | _ => false
    else false

/-- `Qid` from protocol.rs: unique file identifier (13 bytes on the wire). -/
structure Qid where
  typ : Nat
  version : Nat
  path : Nat
deriving Repr, DecidableEq

/-- `QID_DIR` flag from protocol.rs. -/
def QID_DIR : Nat := 0x80

/-- `Qid::is_dir`: tests the directory bit of the type byte. -/
def Qid.isDir (q : Qid) : Bool := q.typ &&& QID_DIR != 0

/-- `Qid::SIZE`. -/
def Qid.SIZE : Nat := 13

/-- `Qid::decode`: `None` if fewer than 13 bytes, otherwise the type byte,
a little-endian `u32` version and a little-endian `u64` path. -/
def Qid.decodeBytes (data : List Nat) : Option Qid :=
  if data.length < Qid.SIZE then none
  else some ⟨leToNat (data.take 1), leToNat ((data.drop 1).take 4),
             leToNat ((data.drop 5).take 8)⟩

/-- `Qid::encode`: writes type byte, version (LE u32) and path (LE u64)
into a 13-byte buffer. -/
def Qid.encodeBytes (q : Qid) : List Nat :=
  leBytes 1 q.typ ++ leBytes 4 q.version ++ leBytes 8 q.path

/-- `Header` from protocol.rs: `size` (u32), `typ` (u8), `tag` (u16). -/
structure Header where
  size : Nat
  typ : Nat
  tag : Nat
deriving Repr, DecidableEq

/-- `Header::SIZE`. -/
def Header.SIZE : Nat := 7

/-- `Header::decode`. -/
def Header.decodeBytes (data : List Nat) : Option Header :=
  if data.length < Header.SIZE then none
  else some ⟨leToNat (data.take 4), leToNat ((data.drop 4).take 1),
             leToNat ((data.drop 5).take 2)⟩

/-- `Header::encode`. -/
def Header.encodeBytes (h : Header) : List Nat :=
  leBytes 4 h.size ++ leBytes 1 h.typ ++ leBytes 2 h.tag

/-- `MessageBuilder` from protocol.rs. -/
structure MessageBuilder where
  buf : List Nat
  tag : Nat
deriving Repr, DecidableEq

/-- `MessageBuilder::new`: a 7-byte buffer holding the header with
`size = 0` (patched by `finish`). -/
def MessageBuilder.new (typ tag : Nat) : MessageBuilder :=
  ⟨Header.encodeBytes ⟨0, typ, tag⟩, tag⟩

/-- `MessageBuilder::put_u8`. -/
def MessageBuilder.put_u8 (b : MessageBuilder) (v : Nat) : MessageBuilder :=
  ⟨b.buf ++ leBytes 1 v, b.tag⟩

/-- `MessageBuilder::put_u16`. -/
def MessageBuilder.put_u16 (b : MessageBuilder) (v : Nat) : MessageBuilder :=
  ⟨b.buf ++ leBytes 2 v, b.tag⟩

/-- `MessageBuilder::put_u32`. -/
def MessageBuilder.put_u32 (b : MessageBuilder) (v : Nat) : MessageBuilder :=
  ⟨b.buf ++ leBytes 4 v, b.tag⟩

/-- `MessageBuilder::put_u64`. -/
def MessageBuilder.put_u64 (b : MessageBuilder) (v : Nat) : MessageBuilder :=
  ⟨b.buf ++ leBytes 8 v, b.tag⟩

/-- `MessageBuilder::put_str`: a little-endian `u16` byte length (the Rust
`s.len() as u16` truncation is the `leBytes` reduction mod `2 ^ 16`)
followed by the UTF-8 bytes of the string. -/
def MessageBuilder.put_str (b : MessageBuilder) (s : List Nat) : MessageBuilder :=
  ⟨b.buf ++ leBytes 2 s.length ++ s, b.tag⟩

/-- `MessageBuilder::put_data`: a little-endian `u32` length followed by
the raw bytes. -/
def MessageBuilder.put_data (b : MessageBuilder) (d : List Nat) : MessageBuilder :=
  ⟨b.buf ++ leBytes 4 d.length ++ d, b.tag⟩

/-- `MessageBuilder::put_qid`. -/
def MessageBuilder.put_qid (b : MessageBuilder) (q : Qid) : MessageBuilder :=
  ⟨b.buf ++ q.encodeBytes, b.tag⟩

/-- `MessageBuilder::finish`: patches the first four bytes with the total
buffer length (as a `u32`) and returns the buffer. -/
def MessageBuilder.finish (b : MessageBuilder) : List Nat :=
  leBytes 4 b.buf.length ++ b.buf.drop 4

/-- `MessageParser` from protocol.rs: a byte slice plus a cursor. -/
structure MessageParser where
  data : List Nat
  pos : Nat
deriving Repr, DecidableEq

/-- `MessageParser::new`. -/
def MessageParser.new (data : List Nat) : MessageParser := ⟨data, 0⟩

/-- `MessageParser::skip`. -/
def MessageParser.skip (p : MessageParser) (n : Nat) : Option MessageParser :=
  if p.pos + n > p.data.length then none
  else some ⟨p.data, p.pos + n⟩

/-- `MessageParser::remaining`. -/
def MessageParser.remaining (p : MessageParser) : List Nat := p.data.drop p.pos

/-- `MessageParser::get_u8`. -/
def MessageParser.get_u8 (p : MessageParser) : Option (Nat × MessageParser) :=
  if p.pos ≥ p.data.length then none
  else some (leToNat ((p.data.drop p.pos).take 1), ⟨p.data, p.pos + 1⟩)

/-- `MessageParser::get_u16`. -/
def MessageParser.get_u16 (p : MessageParser) : Option (Nat × MessageParser) :=
  if p.pos + 2 > p.data.length then none
  else some (leToNat ((p.data.drop p.pos).take 2), ⟨p.data, p.pos + 2⟩)

/-- `MessageParser::get_u32`. -/
def MessageParser.get_u32 (p : MessageParser) : Option (Nat × MessageParser) :=
  if p.pos + 4 > p.data.length then none
  else some (leToNat ((p.data.drop p.pos).take 4), ⟨p.data, p.pos + 4⟩)

/-- `MessageParser::get_u64`. -/
def MessageParser.get_u64 (p : MessageParser) : Option (Nat × MessageParser) :=
  if p.pos + 8 > p.data.length then none
  else some (leToNat ((p.data.drop p.pos).take 8), ⟨p.data, p.pos + 8⟩)

/-- `MessageParser::get_str`: a `u16` length prefix, a bounds check, then
`core::str::from_utf8` validation (`.ok()?`). -/
def MessageParser.get_str (p : MessageParser) : Option (List Nat × MessageParser) :=
  match p.get_u16 with
  | none => none
  | some (len, p2) =>
    if p2.pos + len > p2.data.length then none
    else
      let s := (p2.data.drop p2.pos).take len
      if utf8Ok s then some (s, ⟨p2.data, p2.pos + len⟩) else none

/-- `MessageParser::get_data`: a `u32` length prefix, a bounds check, then
the raw slice. -/
def MessageParser.get_data (p : MessageParser) : Option (List Nat × MessageParser) :=
  match p.get_u32 with
  | none => none
  | some (len, p2) =>
    if p2.pos + len > p2.data.length then none
    else some ((p2.data.drop p2.pos).take len, ⟨p2.data, p2.pos + len⟩)

/-- `MessageParser::get_qid`. -/
def MessageParser.get_qid (p : MessageParser) : Option (Qid × MessageParser) :=
  if p.pos + Qid.SIZE > p.data.length then none
  else
    match Qid.decodeBytes (p.data.drop p.pos) with
    | none => none
    | some q => some (q, ⟨p.data, p.pos + Qid.SIZE⟩)

/-- `MessageParser::get_header`. -/
def MessageParser.get_header (p : MessageParser) : Option (Header × MessageParser) :=
  if p.pos + Header.SIZE > p.data.length then none
  else
    match Header.decodeBytes (p.data.drop p.pos) with
    | none => none
    | some h => some (h, ⟨p.data, p.pos + Header.SIZE⟩)

/-- `MSIZE` from client.rs: advertised maximum message size (128 KiB). -/
def MSIZE : Nat := 131072

/-- `VERSION` from client.rs: the UTF-8 bytes of the 9P2000.L version
string. -/
def VERSION : List Nat := [57, 80, 50, 48, 48, 48, 46, 76]

/-- Selected `MsgType` discriminants from protocol.rs. -/
def Tversion : Nat := 100
/-- `MsgType::Rversion`. -/
def Rversion : Nat := 101
/-- `MsgType::Rerror`. -/
def Rerror : Nat := 107
/-- `MsgType::Tread`. -/
def Tread : Nat := 116
/-- `MsgType::Rread`. -/
def Rread : Nat := 117
/-- `MsgType::Twrite`. -/
def Twrite : Nat := 118
/-- `MsgType::Rwrite`. -/
def Rwrite : Nat := 119

/-- Error outcomes of the client functions in client.rs.  Each constructor
stands for one distinct `anyhow!` message produced there. -/
inductive P9Error where
  | respTooShort
  | invalidHeader
  | invalidSize
  | rerror (errno : Nat)
  | noHeader
  | unexpectedType (t : Nat)
  | noMsize
  | noVersion
  | versionMismatch
  | noData
  | noCount
  | walkFailed
deriving Repr, DecidableEq

/-- `Client9p::transact`, after the transport reports `written` bytes into
the response buffer `resp` (the DMA buffer; in the driver it has length
`msize`).  Checks `written ≥ 7`, decodes the header from the first seven
bytes, rejects `size > written` and `size > msize`, maps `Rerror`
responses to an error carrying the errno, and otherwise returns the first
`size` bytes.  In the `Rerror` branch the Rust code slices
`resp_dma[7..size]`; for `size < 7` that slice expression would panic,
while the model takes the empty slice (`Nat` subtraction saturates);
no claim depends on that branch. -/
def transact (msize written : Nat) (resp : List Nat) : Except P9Error (List Nat) :=
  if written < Header.SIZE then .error .respTooShort
  else
    match Header.decodeBytes (resp.take Header.SIZE) with
    | none => .error .invalidHeader
    | some header =>
      if header.size > written || header.size > msize then .error .invalidSize
      else if header.typ = Rerror then
        let errno :=
          match (MessageParser.new ((resp.drop Header.SIZE).take (header.size - Header.SIZE))).get_u32 with
          | some (v, _) => v
          | none => 0
        .error (.rerror errno)
      else .ok (resp.take header.size)

instance {ε α : Type} [DecidableEq ε] [DecidableEq α] : DecidableEq (Except ε α) := fun a b =>
  match a, b with
  | .ok x, .ok y =>
    if h : x = y then isTrue (by rw [h]) else isFalse (fun hc => h (Except.ok.inj hc))
  | .ok _, .error _ => isFalse (fun hc => Except.noConfusion hc)
  | .error _, .ok _ => isFalse (fun hc => Except.noConfusion hc)
  | .error e, .error f =>
    if h : e = f then isTrue (by rw [h]) else isFalse (fun hc => h (Except.error.inj hc))

/-- Result of `Client9p::version`: the encoded `Tversion` request, the
call result, and the value of the `msize` field of the client after the
call returns.  The Rust function takes `&self` and never stores the
`msize` it parses from the `Rversion` reply (`let _msize = ...`), so the
field is returned unchanged on every path. -/
structure VersionOutcome where
  request : List Nat
  result : Except P9Error Unit
  msizeAfter : Nat
deriving Repr, DecidableEq

/-- `Client9p::version`, with the transport behaviour supplied as the
written byte count and response buffer consumed by `transact`. -/
def client_version (msize tag written : Nat) (resp : List Nat) : VersionOutcome :=
  let msg := (((MessageBuilder.new Tversion tag).put_u32 msize).put_str VERSION).finish
  match transact msize written resp with
  | .error e => ⟨msg, .error e, msize⟩
  | .ok respBytes =>
    match (MessageParser.new respBytes).get_header with
    | none => ⟨msg, .error .noHeader, msize⟩
    | some (header, p2) =>
      if header.typ ≠ Rversion then ⟨msg, .error (.unexpectedType header.typ), msize⟩
      else
        match p2.get_u32 with
        | none => ⟨msg, .error .noMsize, msize⟩
        | some (_msizeAdv, p3) =>
          match p3.get_str with
          | none => ⟨msg, .error .noVersion, msize⟩
          | some (ver, _) =>
            if ver ≠ VERSION then ⟨msg, .error .versionMismatch, msize⟩
            else ⟨msg, .ok (), msize⟩

/-- Result of `Client9p::read`: the encoded `Tread` request and the call
result. -/
structure ReadOutcome where
  request : List Nat
  result : Except P9Error (List Nat)
deriving Repr, DecidableEq

/-- `Client9p::read`: clamps the requested count to
`msize.saturating_sub(7 + 4)` (`Nat` subtraction is saturating), sends
`Tread fid offset count`, checks the response type and returns the data
field. -/
def client_read (msize tag fid offset count written : Nat) (resp : List Nat) : ReadOutcome :=
  let maxData := msize - (7 + 4)
  let count2 := min count maxData
  let msg := ((((MessageBuilder.new Tread tag).put_u32 fid).put_u64 offset).put_u32 count2).finish
  match transact msize written resp with
  | .error e => ⟨msg, .error e⟩
  | .ok respBytes =>
    match (MessageParser.new respBytes).get_header with
    | none => ⟨msg, .error .noHeader⟩
    | some (header, p2) =>
      if header.typ ≠ Rread then ⟨msg, .error (.unexpectedType header.typ)⟩
      else
        match p2.get_data with
        | none => ⟨msg, .error .noData⟩
        | some (d, _) => ⟨msg, .ok d⟩

/-- Result of `Client9p::write`: the encoded `Twrite` request and the call
result. -/
structure WriteOutcome where
  request : List Nat
  result : Except P9Error Nat
deriving Repr, DecidableEq

/-- `Client9p::write`: sends `Twrite fid offset data` with no clamping of
the payload, checks the response type and returns the count field. -/
def client_write (msize tag fid offset : Nat) (data : List Nat) (written : Nat)
    (resp : List Nat) : WriteOutcome :=
  let msg := ((((MessageBuilder.new Twrite tag).put_u32 fid).put_u64 offset).put_data data).finish
  match transact msize written resp with
  | .error e => ⟨msg, .error e⟩
  | .ok respBytes =>
    match (MessageParser.new respBytes).get_header with
    | none => ⟨msg, .error .noHeader⟩
    | some (header, p2) =>
      if header.typ ≠ Rwrite then ⟨msg, .error (.unexpectedType header.typ)⟩
      else
        match p2.get_u32 with
        | none => ⟨msg, .error .noCount⟩
        | some (c, _) => ⟨msg, .ok c⟩

/-- Redox `O_RDONLY` open flag (value from the external `syscall` crate
used by scheme.rs). -/
def O_RDONLY : Nat := 0x10000
/-- Redox `O_WRONLY`. -/
def O_WRONLY : Nat := 0x20000
/-- Redox `O_RDWR`. -/
def O_RDWR : Nat := 0x30000
/-- Redox `O_ACCMODE` (the union of the three access modes). -/
def O_ACCMODE : Nat := 0x30000
/-- Redox `O_CREAT`. -/
def O_CREAT : Nat := 0x2000000
/-- Redox `O_TRUNC`. -/
def O_TRUNC : Nat := 0x4000000
/-- Redox `O_DIRECTORY`. -/
def O_DIRECTORY : Nat := 0x10000000
/-- Redox `O_STAT`. -/
def O_STAT : Nat := 0x20000000

/-- `P9_RDONLY` from protocol.rs. -/
def P9_RDONLY : Nat := 0
/-- `P9_WRONLY`. -/
def P9_WRONLY : Nat := 1
/-- `P9_RDWR`. -/
def P9_RDWR : Nat := 2
/-- `P9_CREATE`. -/
def P9_CREATE : Nat := 0x40
/-- `P9_TRUNC`. -/
def P9_TRUNC : Nat := 0x200

/-- Errno `ENOENT` (value from the external `syscall` crate). -/
def ENOENT : Nat := 2
/-- Errno `EIO`. -/
def EIO : Nat := 5
/-- Errno `EBADF`. -/
def EBADF : Nat := 9
/-- Errno `EISDIR`. -/
def EISDIR : Nat := 21
/-- Errno `EBADFD`. -/
def EBADFD : Nat := 77

/-- `Scheme9p::to_9p_flags`: access-mode translation plus the `O_TRUNC`
and `O_CREAT` bits.  The fallthrough arm of the Rust `match` maps any
other access mode to `P9_RDONLY`. -/
def to_9p_flags (flags : Nat) : Nat :=
  let acc := flags &&& O_ACCMODE
  let base :=
    if acc = O_RDONLY then P9_RDONLY
    else if acc = O_WRONLY then P9_WRONLY
    else if acc = O_RDWR then P9_RDWR
    else P9_RDONLY
  let f1 := if flags &&& O_TRUNC ≠ 0 then base ||| P9_TRUNC else base
  if flags &&& O_CREAT ≠ 0 then f1 ||| P9_CREATE else f1

/-- `Scheme9p::to_9p_lopen_flags`: like `to_9p_flags` but never forwards
`O_CREAT` (lopen cannot create files). -/
def to_9p_lopen_flags (flags : Nat) : Nat :=
  let acc := flags &&& O_ACCMODE
  let base :=
    if acc = O_RDONLY then P9_RDONLY
    else if acc = O_WRONLY then P9_WRONLY
    else if acc = O_RDWR then P9_RDWR
    else P9_RDONLY
  if flags &&& O_TRUNC ≠ 0 then base ||| P9_TRUNC else base

/-- Path components as computed in `Scheme9p::walk_path`:
the Rust split at the slash byte 47 followed by a filter that keeps
only the non-empty pieces, over UTF-8 path bytes. -/
def splitComponents (path : List Nat) : List (List Nat) :=
  (path.splitOn 47).filter (fun s => s ≠ [])

/-- Outcome of `Scheme9p::walk_path`: the scheme-level result (errno or
fid and qid) together with the list of fids the function clunked before
returning. -/
structure WalkPathOutcome where
  result : Except Nat (Nat × Qid)
  clunked : List Nat
deriving Repr, DecidableEq

/-- `Scheme9p::walk_path`.  `newFid` is the fid obtained from
`alloc_fid`; `walkOutcome` is the result of `client.walk` on the path
components (an adversarial server may return any list of qids).  A failed
walk maps to `ENOENT`; a partial walk (component count positive and qid
count different) clunks the provisional fid and maps to `ENOENT`;
otherwise the final qid (or the root qid for an empty path) is returned. -/
def walk_path (newFid : Nat) (rootQid : Qid) (path : List Nat)
    (walkOutcome : Except P9Error (List Qid)) : WalkPathOutcome :=
  let components := splitComponents path
  match walkOutcome with
  | .error _ => ⟨.error ENOENT, []⟩
  | .ok qids =>
    if components.length > 0 && qids.length ≠ components.length then
      ⟨.error ENOENT, [newFid]⟩
    else
      ⟨.ok (newFid, qids.getLast?.getD rootQid), []⟩

/-- The Rust rfind of the last slash byte (47) over path bytes. -/
def rfindSlash (path : List Nat) : Option Nat :=
  match path.reverse.findIdx? (fun b => b = 47) with
  | none => none
  | some j => some (path.length - 1 - j)

/-- The parent/name split used by `Scheme9p::open` (create branch) and
`Scheme9p::frename`: split at the last slash, or parent `""` when there
is none. -/
def splitParent (path : List Nat) : List Nat × List Nat :=
  match rfindSlash path with
  | some i => (path.take i, path.drop (i + 1))
  | none => ([], path)

/-- Outcome of `Scheme9p::frename` (after the handle lookup): the result,
the fids clunked before the result is surfaced, and the component lists
requested from the two parent-directory walks. -/
structure FrenameOutcome where
  result : Except Nat Nat
  clunked : List Nat
  oldComponents : List (List Nat)
  newComponents : List (List Nat)
deriving Repr, DecidableEq

/-- `Scheme9p::frename`, with the outcomes of the two `client.walk` calls
and of `client.renameat` supplied by the transport.  The Rust code treats
only an `Err` from `walk` as failure: a partial walk (fewer qids than
requested components) is not examined.  Both directory fids are clunked
after `renameat`; a `renameat` error surfaces as `EIO`. -/
def frename (oldDirFid newDirFid : Nat) (oldPath newPath : List Nat)
    (walkOld walkNew : Except P9Error (List Qid))
    (renameOutcome : Except P9Error Unit) : FrenameOutcome :=
  let oldParent := (splitParent oldPath).1
  let newParent := (splitParent newPath).1
  let oldComponents := splitComponents oldParent
  let newComponents := splitComponents newParent
  match walkOld with
  | .error _ => ⟨.error ENOENT, [], oldComponents, newComponents⟩
  | .ok _qidsOld =>
    match walkNew with
    | .error _ => ⟨.error ENOENT, [oldDirFid], oldComponents, newComponents⟩
    | .ok _qidsNew =>
      match renameOutcome with
      | .error _ => ⟨.error EIO, [oldDirFid, newDirFid], oldComponents, newComponents⟩
      | .ok _ => ⟨.ok 0, [oldDirFid, newDirFid], oldComponents, newComponents⟩

/-- The arguments of the `client.lcreate` call made by the create branch
of `Scheme9p::open` (taken when `walk_path` failed and `O_CREAT` is set),
plus what the branch does afterwards: whether `lopen` is issued and which
fid the handle stores. -/
structure CreateArgs where
  fid : Nat
  name : List Nat
  flags9p : Nat
  mode : Nat
  gid : Nat
  lopenAfter : Bool
  handleFid : Nat
deriving Repr, DecidableEq

/-- The `lopen` decision in `Scheme9p::open` after the walk/create phase:
`flags & O_STAT == 0 && !already_opened`. -/
def lopenIssued (flags : Nat) (alreadyOpened : Bool) : Bool :=
  (flags &&& O_STAT == 0) && !alreadyOpened

/-- The create branch of `Scheme9p::open`: the last path component is the
new name, the 9P flags are `to_9p_flags(flags)`, the mode is
`(flags & 0o7777) | 0o100000` (regular file), the gid is the caller gid,
and the parent fid (repurposed by `lcreate`) becomes the handle fid with
`already_opened = true`, so no `lopen` follows. -/
def open_create_branch (path : List Nat) (flags gid parentFid : Nat) : CreateArgs :=
  { fid := parentFid
    name := (splitParent path).2
    flags9p := to_9p_flags flags
    mode := (flags &&& 0o7777) ||| 0o100000
    gid := gid
    lopenAfter := lopenIssued flags true
    handleFid := parentFid }

/-- An open handle of `Scheme9p` (scheme.rs `Handle`). -/
structure Handle where
  fid : Nat
  path : List Nat
  qid : Qid
  flags : Nat
  dirOffset : Nat
deriving Repr, DecidableEq

/-- `SchemeSync::read` for `Scheme9p`.  `handles` is the handle map,
`clientRead fid offset count` supplies the result of `client.read`, and
the return value is the byte count together with the bytes copied into
the caller buffer of length `bufLen`. -/
def scheme_read (handles : List (Nat × Handle)) (id : Nat) (bufLen offset fcntlFlags : Nat)
    (clientRead : Nat → Nat → Nat → Except P9Error (List Nat)) :
    Except Nat (Nat × List Nat) :=
  match handles.lookup id with
  | none => .error EBADFD
  | some h =>
    if h.qid.isDir then .error EISDIR
    else if !(fcntlFlags &&& O_ACCMODE == O_RDONLY || fcntlFlags &&& O_ACCMODE == O_RDWR) then
      .error EBADF
    else
      match clientRead h.fid offset bufLen with
      | .error _ => .error EIO
      | .ok d =>
        let len := min d.length bufLen
        .ok (len, d.take len)

/-- The bounds check on `tag_len` in `read_mount_tag` (main.rs): only
`tag_len == 0` and `tag_len > 256` are rejected. -/
def tagLenOk (tagLen : Nat) : Bool := !(tagLen == 0 || tagLen > 256)

/-- The config-space offset passed to `load_config` for tag byte `i` in
`read_mount_tag`: the Rust expression `2 + i as u8` is 8-bit arithmetic,
so the intended offset `2 + i` wraps modulo 256 (release-mode semantics;
in debug mode the overflowing addition panics instead). -/
def mountTagConfigOffset (i : Nat) : Nat := (2 + i % 256) % 256

/-- The byte-collection loop of `read_mount_tag`: reads `tagLen` bytes at
the (wrapped) config offsets, stopping early at a zero byte. -/
def readTagFrom (loadConfigByte : Nat → Nat) : Nat → Nat → List Nat
  | _, 0 => []
  | i, n + 1 =>
    let b := loadConfigByte (mountTagConfigOffset i) % 256
    if b = 0 then [] else b :: readTagFrom loadConfigByte (i + 1) n

/-- `read_mount_tag` (main.rs): reads the u16 `tag_len` at config offset
0, applies the bounds check, collects the tag bytes and validates them as
UTF-8 (`String::from_utf8(..).unwrap_or_default()`).  `loadConfig off n`
models `transport.load_config(off, n)`. -/
def read_mount_tag (loadConfig : Nat → Nat → Nat) : List Nat :=
  let tagLen := loadConfig 0 2
  if tagLen = 0 || tagLen > 256 then []
  else
    let bytes := readTagFrom (fun off => loadConfig off 1) 0 tagLen
    if utf8Ok bytes then bytes else []

/-- One field appended to an outgoing message by a `MessageBuilder`
method. -/
inductive WireField where
  | u8 (v : Nat)
  | u16 (v : Nat)
  | u32 (v : Nat)
  | u64 (v : Nat)
  | str (s : List Nat)
  | data (d : List Nat)
  | qid (q : Qid)
deriving Repr, DecidableEq

/-- The bytes a `MessageBuilder` appends for one field. -/
def WireField.encode : WireField → List Nat
  | .u8 v => leBytes 1 v
  | .u16 v => leBytes 2 v
  | .u32 v => leBytes 4 v
  | .u64 v => leBytes 8 v
  | .str s => leBytes 2 s.length ++ s
  | .data d => leBytes 4 d.length ++ d
  | .qid q => q.encodeBytes

/-- Validity of a field value: it fits the Rust machine type it is encoded
as (and strings are valid UTF-8, as Rust `str` guarantees). -/
def WireField.valid : WireField → Prop
  | .u8 v => v < 256
  | .u16 v => v < 2 ^ 16
  | .u32 v => v < 2 ^ 32
  | .u64 v => v < 2 ^ 64
  | .str s => s.length < 2 ^ 16 ∧ utf8Ok s = true
  | .data d => d.length < 2 ^ 32
  | .qid q => q.typ < 256 ∧ q.version < 2 ^ 32 ∧ q.path < 2 ^ 64

/-- Dispatch one field to the corresponding `put_*` builder method. -/
def MessageBuilder.putField (b : MessageBuilder) : WireField → MessageBuilder
  | .u8 v => b.put_u8 v
  | .u16 v => b.put_u16 v
  | .u32 v => b.put_u32 v
  | .u64 v => b.put_u64 v
  | .str s => b.put_str s
  | .data d => b.put_data d
  | .qid q => b.put_qid q

/-- Append a list of fields in order. -/
def MessageBuilder.putFields (b : MessageBuilder) : List WireField → MessageBuilder
  | [] => b
  | f :: fs => (b.putField f).putFields fs

/-- The concatenated encoding of a field list. -/
def fieldsEncode : List WireField → List Nat
  | [] => []
  | f :: fs => f.encode ++ fieldsEncode fs

/-- Read a list of fields back with the matching `get_*` parser methods,
checking each parsed value against the field; returns the final parser
state on success. -/
def parseFields (p : MessageParser) : List WireField → Option MessageParser
  | [] => some p
  | f :: fs =>
    match f with
    | .u8 v =>
      match p.get_u8 with
      | some (w, p2) => if w = v then parseFields p2 fs else none
      | none => none
    | .u16 v =>
      match p.get_u16 with
      | some (w, p2) => if w = v then parseFields p2 fs else none
      | none => none
    | .u32 v =>
      match p.get_u32 with
      | some (w, p2) => if w = v then parseFields p2 fs else none
      | none => none
    | .u64 v =>
      match p.get_u64 with
      | some (w, p2) => if w = v then parseFields p2 fs else none
      | none => none
    | .str s =>
      match p.get_str with
      | some (t, p2) => if t = s then parseFields p2 fs else none
      | none => none
    | .data d =>
      match p.get_data with
      | some (t, p2) => if t = d then parseFields p2 fs else none
      | none => none
    | .qid q =>
      match p.get_qid with
      | some (r, p2) => if r = q then parseFields p2 fs else none
      | none => none

/-- All fields of a message are valid. -/
def fieldsValid (fs : List WireField) : Prop := ∀ f ∈ fs, f.valid

instance : DecidablePred WireField.valid := fun f =>
  match f with
  | .u8 v => inferInstanceAs (Decidable (v < 256))
  | .u16 v => inferInstanceAs (Decidable (v < 2 ^ 16))
  | .u32 v => inferInstanceAs (Decidable (v < 2 ^ 32))
  | .u64 v => inferInstanceAs (Decidable (v < 2 ^ 64))
  | .str s => inferInstanceAs (Decidable (s.length < 2 ^ 16 ∧ utf8Ok s = true))
  | .data d => inferInstanceAs (Decidable (d.length < 2 ^ 32))
  | .qid q => inferInstanceAs (Decidable (q.typ < 256 ∧ q.version < 2 ^ 32 ∧ q.path < 2 ^ 64))

instance (fs : List WireField) : Decidable (fieldsValid fs) :=
  inferInstanceAs (Decidable (∀ f ∈ fs, f.valid))

theorem putField_buf (b : MessageBuilder) (f : WireField) :
    (b.putField f).buf = b.buf ++ f.encode := by
  cases f <;>
    simp [MessageBuilder.putField, MessageBuilder.put_u8, MessageBuilder.put_u16,
      MessageBuilder.put_u32, MessageBuilder.put_u64, MessageBuilder.put_str,
      MessageBuilder.put_data, MessageBuilder.put_qid, WireField.encode, List.append_assoc]

theorem putFields_buf (b : MessageBuilder) (fs : List WireField) :
    (b.putFields fs).buf = b.buf ++ fieldsEncode fs := by
  induction fs generalizing b with
  | nil => simp [MessageBuilder.putFields, fieldsEncode]
  | cons f fs ih =>
    simp [MessageBuilder.putFields, fieldsEncode, ih, putField_buf, List.append_assoc]

theorem drop_append_bound {data bytes rest : List Nat} {pos : Nat}
    (h : data.drop pos = bytes ++ rest) (hw : 0 < bytes.length) :
    pos + bytes.length + rest.length = data.length := by
  have hl := congrArg List.length h
  simp only [List.length_drop, List.length_append] at hl
  omega

theorem drop_of_drop_append {data bytes rest : List Nat} {pos : Nat}
    (h : data.drop pos = bytes ++ rest) :
    data.drop (pos + bytes.length) = rest := by
  have : (data.drop pos).drop bytes.length = rest := by
    rw [h, List.drop_left]
  rw [List.drop_drop] at this
  exact this

theorem take_of_drop_append {data bytes rest : List Nat} {pos n : Nat}
    (h : data.drop pos = bytes ++ rest) (hn : bytes.length = n) :
    (data.drop pos).take n = bytes := by
  rw [h, List.take_left' hn]

theorem get_u8_encoded {data rest : List Nat} {pos v : Nat}
    (h : data.drop pos = leBytes 1 v ++ rest) :
    MessageParser.get_u8 ⟨data, pos⟩ = some (v % 256, ⟨data, pos + 1⟩) := by
  have hb := drop_append_bound h (by simp)
  simp only [leBytes_length] at hb
  have htake : (data.drop pos).take 1 = leBytes 1 v := take_of_drop_append h (leBytes_length _ _)
  simp only [MessageParser.get_u8]
  rw [if_neg (by omega), htake, leToNat_leBytes]
  norm_num

theorem get_u16_encoded {data rest : List Nat} {pos v : Nat}
    (h : data.drop pos = leBytes 2 v ++ rest) :
    MessageParser.get_u16 ⟨data, pos⟩ = some (v % 2 ^ 16, ⟨data, pos + 2⟩) := by
  have hb := drop_append_bound h (by simp)
  simp only [leBytes_length] at hb
  have htake : (data.drop pos).take 2 = leBytes 2 v := take_of_drop_append h (leBytes_length _ _)
  simp only [MessageParser.get_u16]
  rw [if_neg (by omega), htake, leToNat_leBytes]
  norm_num

theorem get_u32_encoded {data rest : List Nat} {pos v : Nat}
    (h : data.drop pos = leBytes 4 v ++ rest) :
    MessageParser.get_u32 ⟨data, pos⟩ = some (v % 2 ^ 32, ⟨data, pos + 4⟩) := by
  have hb := drop_append_bound h (by simp)
  simp only [leBytes_length] at hb
  have htake : (data.drop pos).take 4 = leBytes 4 v := take_of_drop_append h (leBytes_length _ _)
  simp only [MessageParser.get_u32]
  rw [if_neg (by omega), htake, leToNat_leBytes]
  norm_num

theorem get_u64_encoded {data rest : List Nat} {pos v : Nat}
    (h : data.drop pos = leBytes 8 v ++ rest) :
    MessageParser.get_u64 ⟨data, pos⟩ = some (v % 2 ^ 64, ⟨data, pos + 8⟩) := by
  have hb := drop_append_bound h (by simp)
  simp only [leBytes_length] at hb
  simp only [MessageParser.get_u64]
  rw [if_neg (by omega), take_of_drop_append h (leBytes_length _ _), leToNat_leBytes]
  norm_num

theorem qid_decodeBytes_encode_append (q : Qid) (rest : List Nat) :
    Qid.decodeBytes (q.encodeBytes ++ rest)
      = some ⟨q.typ % 256, q.version % 2 ^ 32, q.path % 2 ^ 64⟩ := by
  have e : q.encodeBytes ++ rest
      = leBytes 1 q.typ ++ (leBytes 4 q.version ++ (leBytes 8 q.path ++ rest)) := by
    simp [Qid.encodeBytes]
  have e5 : q.encodeBytes ++ rest
      = (leBytes 1 q.typ ++ leBytes 4 q.version) ++ (leBytes 8 q.path ++ rest) := by
    simp [Qid.encodeBytes]
  have hlen : ¬ (q.encodeBytes ++ rest).length < Qid.SIZE := by
    simp [Qid.encodeBytes, Qid.SIZE]
    omega
  have t1 : (q.encodeBytes ++ rest).take 1 = leBytes 1 q.typ := by
    rw [e]; exact List.take_left' (leBytes_length _ _)
  have d1 : (q.encodeBytes ++ rest).drop 1
      = leBytes 4 q.version ++ (leBytes 8 q.path ++ rest) := by
    rw [e]; exact List.drop_left' (leBytes_length _ _)
  have t4 : ((q.encodeBytes ++ rest).drop 1).take 4 = leBytes 4 q.version := by
    rw [d1]; exact List.take_left' (leBytes_length _ _)
  have d5 : (q.encodeBytes ++ rest).drop 5 = leBytes 8 q.path ++ rest := by
    rw [e5]; exact List.drop_left' (by simp)
  have t8 : ((q.encodeBytes ++ rest).drop 5).take 8 = leBytes 8 q.path := by
    rw [d5]; exact List.take_left' (leBytes_length _ _)
  rw [Qid.decodeBytes, if_neg hlen, t1, t4, t8, leToNat_leBytes, leToNat_leBytes,
    leToNat_leBytes]
  norm_num

theorem header_decodeBytes_encode_append (h : Header) (rest : List Nat) :
    Header.decodeBytes (h.encodeBytes ++ rest)
      = some ⟨h.size % 2 ^ 32, h.typ % 256, h.tag % 2 ^ 16⟩ := by
  have e : h.encodeBytes ++ rest
      = leBytes 4 h.size ++ (leBytes 1 h.typ ++ (leBytes 2 h.tag ++ rest)) := by
    simp [Header.encodeBytes]
  have e5 : h.encodeBytes ++ rest
      = (leBytes 4 h.size ++ leBytes 1 h.typ) ++ (leBytes 2 h.tag ++ rest) := by
    simp [Header.encodeBytes]
  have hlen : ¬ (h.encodeBytes ++ rest).length < Header.SIZE := by
    simp [Header.encodeBytes, Header.SIZE]
    omega
  have t4 : (h.encodeBytes ++ rest).take 4 = leBytes 4 h.size := by
    rw [e]; exact List.take_left' (leBytes_length _ _)
  have d4 : (h.encodeBytes ++ rest).drop 4
      = leBytes 1 h.typ ++ (leBytes 2 h.tag ++ rest) := by
    rw [e]; exact List.drop_left' (leBytes_length _ _)
  have t1 : ((h.encodeBytes ++ rest).drop 4).take 1 = leBytes 1 h.typ := by
    rw [d4]; exact List.take_left' (leBytes_length _ _)
  have d5 : (h.encodeBytes ++ rest).drop 5 = leBytes 2 h.tag ++ rest := by
    rw [e5]; exact List.drop_left' (by simp)
  have t2 : ((h.encodeBytes ++ rest).drop 5).take 2 = leBytes 2 h.tag := by
    rw [d5]; exact List.take_left' (leBytes_length _ _)
  rw [Header.decodeBytes, if_neg hlen, t4, t1, t2, leToNat_leBytes, leToNat_leBytes,
    leToNat_leBytes]
  norm_num

theorem get_qid_encoded {data rest : List Nat} {pos : Nat} {q : Qid}
    (h : data.drop pos = q.encodeBytes ++ rest) :
    MessageParser.get_qid ⟨data, pos⟩
      = some (⟨q.typ % 256, q.version % 2 ^ 32, q.path % 2 ^ 64⟩, ⟨data, pos + 13⟩) := by
  have hb := drop_append_bound h (by simp [Qid.encodeBytes])
  simp only [Qid.encodeBytes, List.length_append, leBytes_length] at hb
  simp only [MessageParser.get_qid, Qid.SIZE]
  rw [if_neg (by omega), h, qid_decodeBytes_encode_append]

theorem get_header_encoded {data rest : List Nat} {pos : Nat} {h : Header}
    (hd : data.drop pos = h.encodeBytes ++ rest) :
    MessageParser.get_header ⟨data, pos⟩
      = some (⟨h.size % 2 ^ 32, h.typ % 256, h.tag % 2 ^ 16⟩, ⟨data, pos + 7⟩) := by
  have hb := drop_append_bound hd (by simp [Header.encodeBytes])
  simp only [Header.encodeBytes, List.length_append, leBytes_length] at hb
  simp only [MessageParser.get_header, Header.SIZE]
  rw [if_neg (by omega), hd, header_decodeBytes_encode_append]

theorem get_str_encoded {data s rest : List Nat} {pos : Nat}
    (h : data.drop pos = leBytes 2 s.length ++ (s ++ rest))
    (hlen : s.length < 2 ^ 16) (hok : utf8Ok s = true) :
    MessageParser.get_str ⟨data, pos⟩ = some (s, ⟨data, pos + 2 + s.length⟩) := by
  have hb := drop_append_bound h (by simp)
  simp only [leBytes_length, List.length_append] at hb
  have hu16 := get_u16_encoded h
  rw [Nat.mod_eq_of_lt hlen] at hu16
  have hd : data.drop (pos + 2) = s ++ rest := by
    have hh := drop_of_drop_append h
    simpa using hh
  have htake : (data.drop (pos + 2)).take s.length = s := take_of_drop_append hd rfl
  simp only [MessageParser.get_str]
  rw [hu16]
  simp only []
  rw [if_neg (by omega), htake, if_pos hok]

theorem get_data_encoded {data d rest : List Nat} {pos : Nat}
    (h : data.drop pos = leBytes 4 d.length ++ (d ++ rest))
    (hlen : d.length < 2 ^ 32) :
    MessageParser.get_data ⟨data, pos⟩ = some (d, ⟨data, pos + 4 + d.length⟩) := by
  have hb := drop_append_bound h (by simp)
  simp only [leBytes_length, List.length_append] at hb
  have hu32 := get_u32_encoded h
  rw [Nat.mod_eq_of_lt hlen] at hu32
  have hd : data.drop (pos + 4) = d ++ rest := by
    have hh := drop_of_drop_append h
    simpa using hh
  have htake : (data.drop (pos + 4)).take d.length = d := take_of_drop_append hd rfl
  simp only [MessageParser.get_data]
  rw [hu32]
  simp only []
  rw [if_neg (by omega), htake]

theorem parseFields_encoded :
    ∀ (fs : List WireField) (data rest : List Nat) (pos : Nat),
      data.drop pos = fieldsEncode fs ++ rest →
      fieldsValid fs →
      parseFields ⟨data, pos⟩ fs = some ⟨data, pos + (fieldsEncode fs).length⟩ := by
  intro fs
  induction fs with
  | nil =>
    intro data rest pos h hv
    simp [parseFields, fieldsEncode]
  | cons f fs ih =>
    intro data rest pos h hv
    have hvf : f.valid := hv f (by simp)
    have hvs : fieldsValid fs := fun g hg => hv g (by simp [hg])
    cases f with
    | u8 v =>
      simp only [WireField.valid] at hvf
      have h1 : data.drop pos = leBytes 1 v ++ (fieldsEncode fs ++ rest) := by
        simpa [fieldsEncode, WireField.encode, List.append_assoc] using h
      have hg := get_u8_encoded h1
      rw [Nat.mod_eq_of_lt hvf] at hg
      have hd : data.drop (pos + 1) = fieldsEncode fs ++ rest := by
        have hh := drop_of_drop_append h1
        simpa using hh
      simp only [parseFields]
      rw [hg]
      simp only [if_pos rfl]
      rw [ih _ _ _ hd hvs]
      simp [fieldsEncode, WireField.encode, Nat.add_assoc]
    | u16 v =>
      simp only [WireField.valid] at hvf
      have h1 : data.drop pos = leBytes 2 v ++ (fieldsEncode fs ++ rest) := by
        simpa [fieldsEncode, WireField.encode, List.append_assoc] using h
      have hg := get_u16_encoded h1
      rw [Nat.mod_eq_of_lt hvf] at hg
      have hd : data.drop (pos + 2) = fieldsEncode fs ++ rest := by
        have hh := drop_of_drop_append h1
        simpa using hh
      simp only [parseFields]
      rw [hg]
      simp only [if_pos rfl]
      rw [ih _ _ _ hd hvs]
      simp [fieldsEncode, WireField.encode, Nat.add_assoc]
    | u32 v =>
      simp only [WireField.valid] at hvf
      have h1 : data.drop pos = leBytes 4 v ++ (fieldsEncode fs ++ rest) := by
        simpa [fieldsEncode, WireField.encode, List.append_assoc] using h
      have hg := get_u32_encoded h1
      rw [Nat.mod_eq_of_lt hvf] at hg
      have hd : data.drop (pos + 4) = fieldsEncode fs ++ rest := by
        have hh := drop_of_drop_append h1
        simpa using hh
      simp only [parseFields]
      rw [hg]
      simp only [if_pos rfl]
      rw [ih _ _ _ hd hvs]
      simp [fieldsEncode, WireField.encode, Nat.add_assoc]
    | u64 v =>
      simp only [WireField.valid] at hvf
      have h1 : data.drop pos = leBytes 8 v ++ (fieldsEncode fs ++ rest) := by
        simpa [fieldsEncode, WireField.encode, List.append_assoc] using h
      have hg := get_u64_encoded h1
      rw [Nat.mod_eq_of_lt hvf] at hg
      have hd : data.drop (pos + 8) = fieldsEncode fs ++ rest := by
        have hh := drop_of_drop_append h1
        simpa using hh
      simp only [parseFields]
      rw [hg]
      simp only [if_pos rfl]
      rw [ih _ _ _ hd hvs]
      simp [fieldsEncode, WireField.encode, Nat.add_assoc]
    | str s =>
      simp only [WireField.valid] at hvf
      have h1 : data.drop pos = leBytes 2 s.length ++ (s ++ (fieldsEncode fs ++ rest)) := by
        simpa [fieldsEncode, WireField.encode, List.append_assoc] using h
      have hg := get_str_encoded h1 hvf.1 hvf.2
      have h2 : data.drop pos = (leBytes 2 s.length ++ s) ++ (fieldsEncode fs ++ rest) := by
        simpa [List.append_assoc] using h1
      have hd : data.drop (pos + 2 + s.length) = fieldsEncode fs ++ rest := by
        have hh := drop_of_drop_append h2
        simp only [List.length_append, leBytes_length] at hh
        rw [Nat.add_assoc]
        exact hh
      simp only [parseFields]
      rw [hg]
      simp only [if_pos rfl]
      rw [ih _ _ _ hd hvs]
      simp [fieldsEncode, WireField.encode]
      omega
    | data d =>
      simp only [WireField.valid] at hvf
      have h1 : data.drop pos = leBytes 4 d.length ++ (d ++ (fieldsEncode fs ++ rest)) := by
        simpa [fieldsEncode, WireField.encode, List.append_assoc] using h
      have hg := get_data_encoded h1 hvf
      have h2 : data.drop pos = (leBytes 4 d.length ++ d) ++ (fieldsEncode fs ++ rest) := by
        simpa [List.append_assoc] using h1
      have hd : data.drop (pos + 4 + d.length) = fieldsEncode fs ++ rest := by
        have hh := drop_of_drop_append h2
        simp only [List.length_append, leBytes_length] at hh
        rw [Nat.add_assoc]
        exact hh
      simp only [parseFields]
      rw [hg]
      simp only [if_pos rfl]
      rw [ih _ _ _ hd hvs]
      simp [fieldsEncode, WireField.encode]
      omega
    | qid q =>
      simp only [WireField.valid] at hvf
      have h1 : data.drop pos = q.encodeBytes ++ (fieldsEncode fs ++ rest) := by
        simpa [fieldsEncode, WireField.encode, List.append_assoc] using h
      have hg := get_qid_encoded h1
      have hq : (⟨q.typ % 256, q.version % 2 ^ 32, q.path % 2 ^ 64⟩ : Qid) = q := by
        cases q with
        | mk t ver pa =>
          simp only [Qid.mk.injEq]
          exact ⟨Nat.mod_eq_of_lt hvf.1, Nat.mod_eq_of_lt hvf.2.1, Nat.mod_eq_of_lt hvf.2.2⟩
      rw [hq] at hg
      have hd : data.drop (pos + 13) = fieldsEncode fs ++ rest := by
        have hh := drop_of_drop_append h1
        simp only [Qid.encodeBytes, List.length_append, leBytes_length] at hh
        convert hh using 2
      simp only [parseFields]
      rw [hg]
      simp only [if_pos rfl]
      rw [ih _ _ _ hd hvs]
      simp [fieldsEncode, WireField.encode, Qid.encodeBytes, Nat.add_assoc]
      omega

theorem finish_putFields (typ tag : Nat) (fs : List WireField) :
    ((MessageBuilder.new typ tag).putFields fs).finish
      = Header.encodeBytes ⟨7 + (fieldsEncode fs).length, typ, tag⟩ ++ fieldsEncode fs := by
  have hbuf : ((MessageBuilder.new typ tag).putFields fs).buf
      = Header.encodeBytes ⟨0, typ, tag⟩ ++ fieldsEncode fs := by
    rw [putFields_buf]
    rfl
  have hlen : (Header.encodeBytes ⟨0, typ, tag⟩ ++ fieldsEncode fs).length
      = 7 + (fieldsEncode fs).length := by
    simp [Header.encodeBytes]
    omega
  have hdrop : (Header.encodeBytes ⟨0, typ, tag⟩ ++ fieldsEncode fs).drop 4
      = leBytes 1 typ ++ (leBytes 2 tag ++ fieldsEncode fs) := by
    have e : Header.encodeBytes ⟨0, typ, tag⟩ ++ fieldsEncode fs
        = leBytes 4 0 ++ (leBytes 1 typ ++ (leBytes 2 tag ++ fieldsEncode fs)) := by
      simp [Header.encodeBytes]
    rw [e]
    exact List.drop_left' (leBytes_length _ _)
  simp only [MessageBuilder.finish, hbuf]
  rw [hlen, hdrop]
  simp [Header.encodeBytes, List.append_assoc]

theorem finish_putFields_length (typ tag : Nat) (fs : List WireField) :
    (((MessageBuilder.new typ tag).putFields fs).finish).length
      = 7 + (fieldsEncode fs).length := by
  rw [finish_putFields]
  simp [Header.encodeBytes]
  omega

/-- Claim C9: encode-then-decode is the identity on valid values.  For
every `Qid` whose fields fit `u8`/`u32`/`u64`, decoding the 13 encoded
bytes returns the same `Qid`; for every `Header` whose fields fit their
types, decode-of-encode returns the same size, type and tag; and for
every message assembled by a `MessageBuilder` from any sequence of
u8/u16/u32/u64/string/data/qid fields (all valid, total size below
`2 ^ 32`), parsing the finished bytes returns first the header, whose
size field equals the total byte length and whose type and tag are those
given to the builder, and then exactly the same field values in order,
consuming the whole message. -/
theorem c9_encode_decode_roundtrip :
    (∀ q : Qid, q.typ < 256 → q.version < 2 ^ 32 → q.path < 2 ^ 64 →
      Qid.decodeBytes q.encodeBytes = some q)
    ∧ (∀ hd : Header, hd.size < 2 ^ 32 → hd.typ < 256 → hd.tag < 2 ^ 16 →
      Header.decodeBytes hd.encodeBytes = some hd)
    ∧ (∀ (typ tag : Nat) (fs : List WireField), typ < 256 → tag < 2 ^ 16 →
      fieldsValid fs → 7 + (fieldsEncode fs).length < 2 ^ 32 →
      MessageParser.get_header
          (MessageParser.new (((MessageBuilder.new typ tag).putFields fs).finish))
        = some (⟨(((MessageBuilder.new typ tag).putFields fs).finish).length, typ, tag⟩,
            ⟨((MessageBuilder.new typ tag).putFields fs).finish, 7⟩)
      ∧ parseFields ⟨((MessageBuilder.new typ tag).putFields fs).finish, 7⟩ fs
        = some ⟨((MessageBuilder.new typ tag).putFields fs).finish,
            (((MessageBuilder.new typ tag).putFields fs).finish).length⟩) := by
  refine ⟨?_, ?_, ?_⟩
  · intro q h1 h2 h3
    have := qid_decodeBytes_encode_append q []
    rw [List.append_nil] at this
    rw [this, Nat.mod_eq_of_lt h1, Nat.mod_eq_of_lt h2, Nat.mod_eq_of_lt h3]
  · intro hd h1 h2 h3
    have := header_decodeBytes_encode_append hd []
    rw [List.append_nil] at this
    rw [this, Nat.mod_eq_of_lt h1, Nat.mod_eq_of_lt h2, Nat.mod_eq_of_lt h3]
  · intro typ tag fs htyp htag hval hsz
    have hmsg := finish_putFields typ tag fs
    have hmlen := finish_putFields_length typ tag fs
    constructor
    · have hdr0 : (((MessageBuilder.new typ tag).putFields fs).finish).drop 0
          = Header.encodeBytes ⟨7 + (fieldsEncode fs).length, typ, tag⟩ ++ fieldsEncode fs := by
        rw [List.drop_zero]; exact hmsg
      have hg := get_header_encoded hdr0
      have hnew : MessageParser.new (((MessageBuilder.new typ tag).putFields fs).finish)
          = ⟨((MessageBuilder.new typ tag).putFields fs).finish, 0⟩ := rfl
      rw [hnew, hg, hmlen]
      norm_num [Nat.mod_eq_of_lt hsz, Nat.mod_eq_of_lt htyp, Nat.mod_eq_of_lt htag]
      exact ⟨by simpa using hsz, by simpa using htag⟩
    · have hdr7 : (((MessageBuilder.new typ tag).putFields fs).finish).drop 7
          = fieldsEncode fs ++ [] := by
        rw [hmsg, List.append_nil]
        exact List.drop_left' (by simp [Header.encodeBytes])
      have hp := parseFields_encoded fs _ [] 7 hdr7 hval
      rw [hp, hmlen]

/-- Witness for C9: a concrete message with one field of each kind
roundtrips. -/
theorem c9_encode_decode_roundtrip_witness :
    Qid.decodeBytes (Qid.encodeBytes ⟨0x80, 7, 42⟩) = some ⟨0x80, 7, 42⟩
    ∧ Header.decodeBytes (Header.encodeBytes ⟨21, 101, 3⟩) = some ⟨21, 101, 3⟩
    ∧ parseFields
        ⟨((MessageBuilder.new 116 1).putFields
            [.u8 5, .u16 300, .u32 70000, .u64 5000000000, .str [57, 80],
             .data [255, 0], .qid ⟨0x80, 7, 42⟩]).finish, 7⟩
        [.u8 5, .u16 300, .u32 70000, .u64 5000000000, .str [57, 80],
         .data [255, 0], .qid ⟨0x80, 7, 42⟩]
      = some ⟨((MessageBuilder.new 116 1).putFields
            [.u8 5, .u16 300, .u32 70000, .u64 5000000000, .str [57, 80],
             .data [255, 0], .qid ⟨0x80, 7, 42⟩]).finish,
          (((MessageBuilder.new 116 1).putFields
            [.u8 5, .u16 300, .u32 70000, .u64 5000000000, .str [57, 80],
             .data [255, 0], .qid ⟨0x80, 7, 42⟩]).finish).length⟩ := by
  refine ⟨?_, ?_, ?_⟩
  · exact (c9_encode_decode_roundtrip.1 ⟨0x80, 7, 42⟩ (by decide) (by decide) (by decide))
  · exact (c9_encode_decode_roundtrip.2.1 ⟨21, 101, 3⟩ (by decide) (by decide) (by decide))
  · exact (c9_encode_decode_roundtrip.2.2
      116 1 [.u8 5, .u16 300, .u32 70000, .u64 5000000000, .str [57, 80],
             .data [255, 0], .qid ⟨0x80, 7, 42⟩]
      (by decide) (by decide) (by decide) (by decide)).2

theorem transact_ok {msize written : Nat} {resp out : List Nat}
    (h : transact msize written resp = .ok out) :
    7 ≤ written ∧
    ∃ hdr, Header.decodeBytes (resp.take 7) = some hdr ∧
      hdr.size ≤ written ∧ hdr.size ≤ msize ∧ hdr.typ ≠ Rerror ∧ out = resp.take hdr.size := by
  unfold transact at h
  split at h
  · exact absurd h (by simp)
  next h1 =>
    split at h
    · exact absurd h (by simp)
    next hdr hdec =>
      split at h
      · exact absurd h (by simp)
      next h2 =>
        split at h
        next h3 => exact absurd h (by simp)
        next h3 =>
          simp only [Except.ok.injEq] at h
          simp only [gt_iff_lt, Bool.or_eq_true, decide_eq_true_eq, not_or, not_lt] at h2
          simp only [Header.SIZE] at h1 hdec
          exact ⟨by omega, hdr, hdec, h2.1, h2.2, h3, h.symm⟩

/-- Claim C3 (amended): whenever `transact` returns a response, the
transport reported at least 7 written bytes and the decoded header size
satisfies `size ≤ written` and `size ≤ msize`, the response is the first
`size` bytes of the buffer, and its type is not `Rerror`; the bounds
`7 ≤ size` and `written ≤ msize` claimed by the spec are NOT checked
(see the counterexample). -/
theorem c3_transact_validation :
    ∀ (msize written : Nat) (resp out : List Nat),
      transact msize written resp = .ok out →
      7 ≤ written ∧
      ∃ hdr, Header.decodeBytes (resp.take 7) = some hdr ∧
        hdr.size ≤ written ∧ hdr.size ≤ msize ∧ hdr.typ ≠ Rerror ∧ out = resp.take hdr.size :=
  fun _ _ _ _ h => transact_ok h

/-- Witness for C3: a concrete accepted response satisfies the proved
bounds. -/
theorem c3_transact_validation_witness :
    7 ≤ 7 ∧
    ∃ hdr, Header.decodeBytes ([7, 0, 0, 0, 101, 0, 0].take 7) = some hdr ∧
      hdr.size ≤ 7 ∧ hdr.size ≤ 131072 ∧ hdr.typ ≠ Rerror ∧
      [7, 0, 0, 0, 101, 0, 0] = [7, 0, 0, 0, 101, 0, 0].take hdr.size :=
  c3_transact_validation 131072 7 [7, 0, 0, 0, 101, 0, 0] [7, 0, 0, 0, 101, 0, 0] (by decide)

/-- Counterexample to claim C3 as stated: `transact` accepts a response
whose decoded header size is 3, violating `7 ≤ R.size` (the size field is
never compared with 7, only `written` is), and it also accepts a
transport report of `written = 131080 > msize` (no check compares
`written` with `msize`). -/
theorem c3_counterexample :
    (transact 131072 7 [3, 0, 0, 0, 101, 0, 0] = .ok [3, 0, 0]
      ∧ Header.decodeBytes [3, 0, 0, 0, 101, 0, 0] = some ⟨3, 101, 0⟩
      ∧ ¬ (7 : Nat) ≤ 3)
    ∧ (transact 131072 131080 [7, 0, 0, 0, 101, 0, 0] = .ok [7, 0, 0, 0, 101, 0, 0]
      ∧ ¬ (131080 : Nat) ≤ 131072) := by decide

/-- Claim C1: `Client9p::version` takes `&self` and drops the `msize`
field of the `Rversion` reply (`let _msize = ...`), so the client msize is
131072 after every call, including a successful handshake in which the
server advertised 8192; the spec requires `min(131072, 8192) = 8192`. -/
theorem c1_version_ignores_server_msize :
    (∀ (msize tag written : Nat) (resp : List Nat),
      (client_version msize tag written resp).msizeAfter = msize)
    ∧ (client_version 131072 1 21
        [21, 0, 0, 0, 101, 1, 0, 0, 32, 0, 0, 8, 0,
         57, 80, 50, 48, 48, 48, 46, 76]).result = .ok ()
    ∧ (client_version 131072 1 21
        [21, 0, 0, 0, 101, 1, 0, 0, 32, 0, 0, 8, 0,
         57, 80, 50, 48, 48, 48, 46, 76]).msizeAfter = 131072
    ∧ leToNat [0, 32, 0, 0] = 8192
    ∧ min 131072 8192 = 8192
    ∧ (131072 : Nat) ≠ 8192 := by
  refine ⟨?_, by decide, by decide, by decide, by decide, by decide⟩
  intro msize tag written resp
  unfold client_version
  split
  · rfl
  · split
    · rfl
    next hd p2 heq =>
      split
      · rfl
      · split
        · rfl
        next v p3 heq2 =>
          split
          · rfl
          next s p4 heq3 =>
            split
            · rfl
            · rfl

theorem get_header_some {p : MessageParser} {hd : Header} {p2 : MessageParser}
    (h : p.get_header = some (hd, p2)) :
    p2 = ⟨p.data, p.pos + 7⟩ ∧ p.pos + 7 ≤ p.data.length := by
  unfold MessageParser.get_header at h
  split at h
  · exact absurd h (by simp)
  next hc =>
    split at h
    · exact absurd h (by simp)
    next q hq =>
      simp only [Option.some.injEq, Prod.mk.injEq] at h
      simp only [Header.SIZE] at hc h
      exact ⟨h.2.symm, by omega⟩

theorem get_data_some_length {p : MessageParser} {d : List Nat} {p2 : MessageParser}
    (h : p.get_data = some (d, p2)) :
    p.pos + 4 + d.length ≤ p.data.length := by
  unfold MessageParser.get_data MessageParser.get_u32 at h
  split at h
  · exact absurd h (by simp)
  next len p2x hc =>
    split at h
    · exact absurd h (by simp)
    next hc2 =>
      split at hc
      · exact absurd hc (by simp)
      next hb =>
        simp only [Option.some.injEq, Prod.mk.injEq] at hc h
        obtain ⟨hlen, hp2⟩ := hc
        subst hp2
        simp only [gt_iff_lt, not_lt] at hb hc2
        have hdl : d.length ≤ len := by
          rw [← h.1]
          simp [List.length_take]
        omega

/-- Claim C4 (amended): a successful `Client9p::read` returns at most
`msize - 11` bytes (header 7 plus length field 4), and the count field of
the submitted `Tread` request is `min(count, msize - 11)`: parsing the
request back after its header yields the fid, the offset and exactly that
clamped count.  The returned byte count is NOT bounded by the requested
`count` (see the counterexample): the code never compares the data length
of the reply with the request count. -/
theorem c4_read_clamp :
    ∀ (msize tag fid offset count written : Nat) (resp : List Nat),
      (∀ d, (client_read msize tag fid offset count written resp).result = .ok d →
        d.length ≤ msize - 11)
      ∧ (tag < 2 ^ 16 → fid < 2 ^ 32 → offset < 2 ^ 64 → count < 2 ^ 32 →
          parseFields ⟨(client_read msize tag fid offset count written resp).request, 7⟩
              [.u32 fid, .u64 offset, .u32 (min count (msize - 11))]
            = some ⟨(client_read msize tag fid offset count written resp).request, 23⟩) := by
  intro msize tag fid offset count written resp
  constructor
  · intro d hres
    unfold client_read at hres
    split at hres
    · exact absurd hres (by simp)
    next respBytes htr =>
      split at hres
      · exact absurd hres (by simp)
      next hd p2 hgh =>
        split at hres
        · exact absurd hres (by simp)
        next hne =>
          split at hres
          · exact absurd hres (by simp)
          next dd p3 hgd =>
            simp only [Except.ok.injEq] at hres
            obtain ⟨hw, hdr, hdec, hsw, hsm, _, hout⟩ := transact_ok htr
            have hp2 := get_header_some hgh
            have hlen := get_data_some_length hgd
            rw [hp2.1] at hlen
            simp only [MessageParser.new] at hlen
            have hrb : respBytes.length ≤ msize := by
              rw [hout]
              have := List.length_take hdr.size resp
              simp only [this]
              omega
            rw [← hres]
            simp only [MessageParser.new] at hrb hlen
            omega
  · intro htag hfid hoff hcount
    have hval : fieldsValid [.u32 fid, .u64 offset, .u32 (min count (msize - 11))] := by
      intro f hf
      simp only [List.mem_cons, List.not_mem_nil, or_false] at hf
      rcases hf with rfl | rfl | rfl
      · exact hfid
      · exact hoff
      · exact lt_of_le_of_lt (min_le_left _ _) hcount
    have hreq : (client_read msize tag fid offset count written resp).request
        = ((MessageBuilder.new Tread tag).putFields
            [.u32 fid, .u64 offset, .u32 (min count (msize - 11))]).finish := by
      unfold client_read
      split
      · rfl
      · split
        · rfl
        · split
          · rfl
          · split <;> rfl
    have hdr7 : (((MessageBuilder.new Tread tag).putFields
          [.u32 fid, .u64 offset, .u32 (min count (msize - 11))]).finish).drop 7
        = fieldsEncode [.u32 fid, .u64 offset, .u32 (min count (msize - 11))] ++ [] := by
      rw [finish_putFields, List.append_nil]
      exact List.drop_left' (by simp [Header.encodeBytes])
    have hp := parseFields_encoded _ _ [] 7 hdr7 hval
    rw [hreq, hp]
    simp [fieldsEncode, WireField.encode]

/-- Witness for C4: on a concrete accepted reply the returned length obeys
the `msize - 11` bound and the request carries the clamped count. -/
theorem c4_read_clamp_witness :
    ([65, 66] : List Nat).length ≤ 131072 - 11
    ∧ parseFields
        ⟨(client_read 131072 1 2 0 1 13 [13, 0, 0, 0, 117, 0, 0, 2, 0, 0, 0, 65, 66]).request, 7⟩
        [.u32 2, .u64 0, .u32 (min 1 (131072 - 11))]
      = some ⟨(client_read 131072 1 2 0 1 13 [13, 0, 0, 0, 117, 0, 0, 2, 0, 0, 0, 65, 66]).request,
          23⟩ :=
  ⟨(c4_read_clamp 131072 1 2 0 1 13 [13, 0, 0, 0, 117, 0, 0, 2, 0, 0, 0, 65, 66]).1
      [65, 66] (by decide),
   (c4_read_clamp 131072 1 2 0 1 13 [13, 0, 0, 0, 117, 0, 0, 2, 0, 0, 0, 65, 66]).2
      (by decide) (by decide) (by decide) (by decide)⟩

/-- Counterexample to claim C4 as stated: with requested count 1, a server
reply carrying 2 data bytes is accepted and `read` returns 2 bytes,
violating the claimed bound `length ≤ count`. -/
theorem c4_counterexample :
    (client_read 131072 1 2 0 1 13 [13, 0, 0, 0, 117, 0, 0, 2, 0, 0, 0, 65, 66]).result
      = .ok [65, 66]
    ∧ ¬ ([65, 66] : List Nat).length ≤ 1 := by decide

theorem client_write_request_length
    (msize tag fid offset written : Nat) (data resp : List Nat) :
    (client_write msize tag fid offset data written resp).request.length
      = 23 + data.length := by
  have hreq : (client_write msize tag fid offset data written resp).request
      = ((((MessageBuilder.new Twrite tag).put_u32 fid).put_u64 offset).put_data data).finish := by
    unfold client_write
    split
    · rfl
    · split
      · rfl
      · split
        · rfl
        · split <;> rfl
  rw [hreq]
  simp [MessageBuilder.finish, MessageBuilder.new, MessageBuilder.put_u32,
    MessageBuilder.put_u64, MessageBuilder.put_data, Header.encodeBytes]
  omega

/-- Claim C5: `Client9p::write` performs no clamping: the encoded `Twrite`
request is always `23 + data.len()` bytes (header 7, fid 4, offset 8,
length field 4, payload), and it is handed to the transport regardless of
`msize`.  In particular a payload of `131050` bytes produces a `131073`
byte request, exceeding the negotiated `MSIZE = 131072`; the spec says
such a request is never submitted at that size. -/
theorem c5_write_request_unclamped :
    (∀ (msize tag fid offset written : Nat) (data resp : List Nat),
      (client_write msize tag fid offset data written resp).request.length
        = 23 + data.length)
    ∧ (client_write 131072 1 2 0 (List.replicate 131050 7) 0 []).request.length = 131073
    ∧ 131073 > MSIZE := by
  refine ⟨client_write_request_length, ?_, by decide⟩
  rw [client_write_request_length, List.length_replicate]

/-- Counterexample for claim C6 as stated: opening a missing path with
`O_WRONLY | O_CREAT` makes the adapter call `lcreate` with 9P flags
`P9_WRONLY | P9_CREATE = 0x41`, not `1`: `to_9p_flags` forwards the
create bit, contrary to the claimed `flags=1` with no create bit. -/
theorem c6_counterexample :
    (open_create_branch [110, 101, 119, 46, 116, 120, 116]
        (O_WRONLY ||| O_CREAT) 0 7).flags9p = 0x41
    ∧ (0x41 : Nat) ≠ 1 := by decide

/-- Claim C6 (amended): for a create of a missing path opened write-only
(no truncation), the adapter issues `lcreate` on the parent fid with the
last path component as name, 9P flags `P9_WRONLY | P9_CREATE = 0x41`
(the create bit IS forwarded by `to_9p_flags`), mode
`(flags & 0o7777) | 0o100000` and the caller gid; no `lopen` follows and
the parent fid becomes the handle fid. -/
theorem c6_lcreate_args :
    ∀ (path : List Nat) (flags gid parentFid : Nat),
      flags &&& O_ACCMODE = O_WRONLY → flags &&& O_CREAT ≠ 0 → flags &&& O_TRUNC = 0 →
      open_create_branch path flags gid parentFid
        = ⟨parentFid, (splitParent path).2, 0x41, (flags &&& 0o7777) ||| 0o100000, gid,
           false, parentFid⟩ := by
  intro path flags gid parentFid hacc hcreat htrunc
  unfold open_create_branch to_9p_flags lopenIssued
  rw [hacc, htrunc]
  simp [O_WRONLY, O_RDONLY, O_RDWR, P9_WRONLY, P9_RDONLY, P9_CREATE, P9_TRUNC, hcreat,
    Bool.and_eq_false_iff]

/-- Witness for C6: the concrete write-only create of path `new.txt`. -/
theorem c6_lcreate_args_witness :
    open_create_branch [110, 101, 119, 46, 116, 120, 116] 0x2020000 0 7
      = ⟨7, (splitParent [110, 101, 119, 46, 116, 120, 116]).2, 0x41,
         (0x2020000 &&& 0o7777) ||| 0o100000, 0, false, 7⟩ :=
  c6_lcreate_args [110, 101, 119, 46, 116, 120, 116] 0x2020000 0 7
    (by decide) (by decide) (by decide)

/-- Counterexample to claim C2 as stated: in `frename`, the walk to the
old parent directory `a/b` of path `a/b/c` returns only one of the two
requested qids (a partial walk), yet the operation does not report
not-found: it proceeds to `renameat` and surfaces that error as `EIO`. -/
theorem c2_counterexample :
    frename 10 11 [97, 47, 98, 47, 99] [100]
        (.ok [⟨0x80, 0, 1⟩]) (.ok []) (.error (.rerror 2))
      = ⟨.error EIO, [10, 11], [[97], [98]], []⟩
    ∧ ([(⟨0x80, 0, 1⟩ : Qid)].length < ([[97], [98]] : List (List Nat)).length)
    ∧ EIO ≠ ENOENT := by decide

/-- Claim C2 (amended): `walk_path` clunks the provisional fid and
reports `ENOENT` on every partial walk (this covers `open`, which walks
through `walk_path`).  The two parent-directory walks in `frename` treat
only an `Err` from `client.walk` as failure: when both walks return `Ok`,
the qid counts are never compared with the requested component counts, so
a partial walk is not detected; the two directory fids are still clunked
before the result is surfaced, but the operation reports the result of
`renameat` (`EIO` on error) rather than not-found.  When the second walk
fails, the first fid is clunked and `ENOENT` is reported. -/
theorem c2_partial_walk_handling :
    (∀ (newFid : Nat) (rootQid : Qid) (path : List Nat) (qids : List Qid),
      0 < (splitComponents path).length →
      qids.length < (splitComponents path).length →
      walk_path newFid rootQid path (.ok qids) = ⟨.error ENOENT, [newFid]⟩)
    ∧ (∀ (oldDirFid newDirFid : Nat) (oldPath newPath : List Nat)
        (qidsOld qidsNew : List Qid) (r : Except P9Error Unit),
        (frename oldDirFid newDirFid oldPath newPath (.ok qidsOld) (.ok qidsNew) r).clunked
          = [oldDirFid, newDirFid]
        ∧ (frename oldDirFid newDirFid oldPath newPath (.ok qidsOld) (.ok qidsNew) r).result
          = (match r with | .error _ => .error EIO | .ok _ => .ok 0))
    ∧ (∀ (oldDirFid newDirFid : Nat) (oldPath newPath : List Nat)
        (qidsOld : List Qid) (e : P9Error) (r : Except P9Error Unit),
        frename oldDirFid newDirFid oldPath newPath (.ok qidsOld) (.error e) r
          = ⟨.error ENOENT, [oldDirFid], splitComponents (splitParent oldPath).1,
             splitComponents (splitParent newPath).1⟩) := by
  refine ⟨?_, ?_, ?_⟩
  · intro newFid rootQid path qids h1 h2
    have hcond : (decide ((splitComponents path).length > 0)
        && decide (qids.length ≠ (splitComponents path).length)) = true := by
      simp only [gt_iff_lt, Bool.and_eq_true, decide_eq_true_eq]
      exact ⟨h1, by omega⟩
    unfold walk_path
    simp only [hcond, if_true]
  · intro oldDirFid newDirFid oldPath newPath qidsOld qidsNew r
    cases r <;> simp [frename]
  · intro oldDirFid newDirFid oldPath newPath qidsOld e r
    simp [frename]

/-- Witness for C2 (amended): a concrete partial walk through `walk_path`
is clunked and reported as not-found, and a concrete `frename` with two
`Ok` walks clunks both fids and surfaces the `renameat` error as `EIO`. -/
theorem c2_partial_walk_handling_witness :
    walk_path 5 ⟨0x80, 0, 9⟩ [97, 47, 98] (.ok []) = ⟨.error ENOENT, [5]⟩
    ∧ (frename 10 11 [97, 47, 98, 47, 99] [100]
        (.ok [⟨0x80, 0, 1⟩]) (.ok []) (.error (.rerror 2))).clunked = [10, 11]
    ∧ frename 10 11 [97, 47, 98, 47, 99] [100]
        (.ok [⟨0x80, 0, 1⟩]) (.error .walkFailed) (.error (.rerror 2))
      = ⟨.error ENOENT, [10], splitComponents (splitParent [97, 47, 98, 47, 99]).1,
         splitComponents (splitParent ([100] : List Nat)).1⟩ :=
  ⟨c2_partial_walk_handling.1 5 ⟨0x80, 0, 9⟩ [97, 47, 98] [] (by decide) (by decide),
   (c2_partial_walk_handling.2.1 10 11 [97, 47, 98, 47, 99] [100]
      [⟨0x80, 0, 1⟩] [] (.error (.rerror 2))).1,
   c2_partial_walk_handling.2.2 10 11 [97, 47, 98, 47, 99] [100]
      [⟨0x80, 0, 1⟩] .walkFailed (.error (.rerror 2))⟩

/-- Counterexample to claim C7 as stated: `get_str` can return `None`
even though the requested bytes lie entirely inside the buffer: the two
length-prefix bytes announce 2 content bytes and the buffer holds them,
but `[255, 254]` is not valid UTF-8, so `core::str::from_utf8` fails. -/
theorem c7_counterexample :
    (MessageParser.new [2, 0, 255, 254]).get_str = none
    ∧ leToNat ([2, 0] : List Nat) = 2
    ∧ 2 + 2 ≤ ([2, 0, 255, 254] : List Nat).length
    ∧ utf8Ok [255, 254] = false := by decide

/-- Claim C7 (amended): every `MessageParser` primitive is characterized
by an explicit bounds check against the remaining buffer: it returns
`none` exactly when the requested bytes would run past the end of the
buffer (for `get_str`, also when the announced bytes are not valid
UTF-8), and otherwise returns the value read from the checked range and a
cursor advanced by exactly the consumed length.  The equations are total
over all buffers and cursor positions, including adversarial length
prefixes: no primitive ever reads outside `data`. -/
theorem c7_parser_bounds :
    ∀ (data : List Nat) (pos n : Nat),
      ((⟨data, pos⟩ : MessageParser).skip n
        = if pos + n > data.length then none else some ⟨data, pos + n⟩)
      ∧ ((⟨data, pos⟩ : MessageParser).get_u8
        = if pos + 1 > data.length then none
          else some (leToNat ((data.drop pos).take 1), ⟨data, pos + 1⟩))
      ∧ ((⟨data, pos⟩ : MessageParser).get_u16
        = if pos + 2 > data.length then none
          else some (leToNat ((data.drop pos).take 2), ⟨data, pos + 2⟩))
      ∧ ((⟨data, pos⟩ : MessageParser).get_u32
        = if pos + 4 > data.length then none
          else some (leToNat ((data.drop pos).take 4), ⟨data, pos + 4⟩))
      ∧ ((⟨data, pos⟩ : MessageParser).get_u64
        = if pos + 8 > data.length then none
          else some (leToNat ((data.drop pos).take 8), ⟨data, pos + 8⟩))
      ∧ ((⟨data, pos⟩ : MessageParser).get_header
        = if pos + 7 > data.length then none
          else some (⟨leToNat ((data.drop pos).take 4),
              leToNat (((data.drop pos).drop 4).take 1),
              leToNat (((data.drop pos).drop 5).take 2)⟩, ⟨data, pos + 7⟩))
      ∧ ((⟨data, pos⟩ : MessageParser).get_qid
        = if pos + 13 > data.length then none
          else some (⟨leToNat ((data.drop pos).take 1),
              leToNat (((data.drop pos).drop 1).take 4),
              leToNat (((data.drop pos).drop 5).take 8)⟩, ⟨data, pos + 13⟩))
      ∧ ((⟨data, pos⟩ : MessageParser).get_data
        = if pos + 4 > data.length then none
          else if pos + 4 + leToNat ((data.drop pos).take 4) > data.length then none
          else some ((data.drop (pos + 4)).take (leToNat ((data.drop pos).take 4)),
              ⟨data, pos + 4 + leToNat ((data.drop pos).take 4)⟩))
      ∧ ((⟨data, pos⟩ : MessageParser).get_str
        = if pos + 2 > data.length then none
          else if pos + 2 + leToNat ((data.drop pos).take 2) > data.length then none
          else if utf8Ok ((data.drop (pos + 2)).take (leToNat ((data.drop pos).take 2))) then
            some ((data.drop (pos + 2)).take (leToNat ((data.drop pos).take 2)),
              ⟨data, pos + 2 + leToNat ((data.drop pos).take 2)⟩)
          else none) := by
  intro data pos n
  refine ⟨rfl, ?_, rfl, rfl, rfl, ?_, ?_, ?_, ?_⟩
  · unfold MessageParser.get_u8
    by_cases h : pos ≥ data.length
    · rw [if_pos h, if_pos (by omega)]
    · rw [if_neg h, if_neg (by omega)]
  · unfold MessageParser.get_header
    by_cases h : pos + 7 > data.length
    · simp only [Header.SIZE]
      rw [if_pos (by omega), if_pos h]
    · rw [if_neg (by simp [Header.SIZE]; omega), if_neg h]
      unfold Header.decodeBytes
      rw [if_neg (by simp only [List.length_drop, Header.SIZE]; omega)]
      rfl
  · unfold MessageParser.get_qid
    by_cases h : pos + 13 > data.length
    · simp only [Qid.SIZE]
      rw [if_pos (by omega), if_pos h]
    · rw [if_neg (by simp [Qid.SIZE]; omega), if_neg h]
      unfold Qid.decodeBytes
      rw [if_neg (by simp only [List.length_drop, Qid.SIZE]; omega)]
      rfl
  · unfold MessageParser.get_data MessageParser.get_u32
    by_cases h : pos + 4 > data.length
    · rw [if_pos h, if_pos h]
    · rw [if_neg h, if_neg h]
  · unfold MessageParser.get_str MessageParser.get_u16
    by_cases h : pos + 2 > data.length
    · rw [if_pos h, if_pos h]
    · rw [if_neg h, if_neg h]

/-- Claim C8: the read dispatch of the scheme adapter.  An absent handle
id fails with `EBADFD`; a handle whose qid has the directory bit fails
with `EISDIR`; access-mode bits other than read-only and read-write fail
with `EBADF`; otherwise `client.read(fid, offset, buf.len)` is issued, a
client error surfaces as `EIO`, and on success exactly
`min(returned_length, buf.len)` bytes are copied into the caller buffer
and that count is returned. -/
theorem c8_scheme_read_dispatch :
    ∀ (handles : List (Nat × Handle)) (id bufLen offset fcntlFlags : Nat)
      (clientRead : Nat → Nat → Nat → Except P9Error (List Nat)),
      (handles.lookup id = none →
        scheme_read handles id bufLen offset fcntlFlags clientRead = .error EBADFD)
      ∧ (∀ h, handles.lookup id = some h → h.qid.isDir = true →
          scheme_read handles id bufLen offset fcntlFlags clientRead = .error EISDIR)
      ∧ (∀ h, handles.lookup id = some h → h.qid.isDir = false →
          fcntlFlags &&& O_ACCMODE ≠ O_RDONLY → fcntlFlags &&& O_ACCMODE ≠ O_RDWR →
          scheme_read handles id bufLen offset fcntlFlags clientRead = .error EBADF)
      ∧ (∀ h e, handles.lookup id = some h → h.qid.isDir = false →
          (fcntlFlags &&& O_ACCMODE = O_RDONLY ∨ fcntlFlags &&& O_ACCMODE = O_RDWR) →
          clientRead h.fid offset bufLen = .error e →
          scheme_read handles id bufLen offset fcntlFlags clientRead = .error EIO)
      ∧ (∀ h d, handles.lookup id = some h → h.qid.isDir = false →
          (fcntlFlags &&& O_ACCMODE = O_RDONLY ∨ fcntlFlags &&& O_ACCMODE = O_RDWR) →
          clientRead h.fid offset bufLen = .ok d →
          scheme_read handles id bufLen offset fcntlFlags clientRead
            = .ok (min d.length bufLen, d.take (min d.length bufLen))) := by
  intro handles id bufLen offset fcntlFlags clientRead
  refine ⟨?_, ?_, ?_, ?_, ?_⟩
  · intro hl
    unfold scheme_read
    rw [hl]
  · intro h hl hdir
    unfold scheme_read
    rw [hl]
    simp [hdir]
  · intro h hl hdir hacc1 hacc2
    unfold scheme_read
    rw [hl]
    simp [hdir, hacc1, hacc2]
  · intro h e hl hdir hacc hcr
    unfold scheme_read
    rw [hl]
    rcases hacc with hacc | hacc <;> simp [hdir, hacc, hcr]
  · intro h d hl hdir hacc hcr
    unfold scheme_read
    rw [hl]
    rcases hacc with hacc | hacc <;> simp [hdir, hacc, hcr]

/-- Witness for C8: concrete instances of all five read dispatch
branches. -/
theorem c8_scheme_read_dispatch_witness :
    (scheme_read [] 1 4 0 O_RDONLY (fun _ _ _ => .ok []) = .error EBADFD)
    ∧ (scheme_read [(1, ⟨2, [97], ⟨0x80, 0, 1⟩, 0, 0⟩)] 1 4 0 O_RDONLY
        (fun _ _ _ => .ok []) = .error EISDIR)
    ∧ (scheme_read [(1, ⟨2, [97], ⟨0, 0, 1⟩, 0, 0⟩)] 1 4 0 O_WRONLY
        (fun _ _ _ => .ok []) = .error EBADF)
    ∧ (scheme_read [(1, ⟨2, [97], ⟨0, 0, 1⟩, 0, 0⟩)] 1 4 0 O_RDONLY
        (fun _ _ _ => .error .noData) = .error EIO)
    ∧ (scheme_read [(1, ⟨2, [97], ⟨0, 0, 1⟩, 0, 0⟩)] 1 4 0 O_RDONLY
        (fun _ _ _ => .ok [65, 66]) = .ok (min ([65, 66] : List Nat).length 4,
          ([65, 66] : List Nat).take (min ([65, 66] : List Nat).length 4))) :=
  ⟨(c8_scheme_read_dispatch [] 1 4 0 O_RDONLY (fun _ _ _ => .ok [])).1 (by decide),
   (c8_scheme_read_dispatch [(1, ⟨2, [97], ⟨0x80, 0, 1⟩, 0, 0⟩)] 1 4 0 O_RDONLY
      (fun _ _ _ => .ok [])).2.1 ⟨2, [97], ⟨0x80, 0, 1⟩, 0, 0⟩ (by decide) (by decide),
   (c8_scheme_read_dispatch [(1, ⟨2, [97], ⟨0, 0, 1⟩, 0, 0⟩)] 1 4 0 O_WRONLY
      (fun _ _ _ => .ok [])).2.2.1 ⟨2, [97], ⟨0, 0, 1⟩, 0, 0⟩ (by decide) (by decide)
      (by decide) (by decide),
   (c8_scheme_read_dispatch [(1, ⟨2, [97], ⟨0, 0, 1⟩, 0, 0⟩)] 1 4 0 O_RDONLY
      (fun _ _ _ => .error .noData)).2.2.2.1 ⟨2, [97], ⟨0, 0, 1⟩, 0, 0⟩ .noData
      (by decide) (by decide) (Or.inl (by decide)) rfl,
   (c8_scheme_read_dispatch [(1, ⟨2, [97], ⟨0, 0, 1⟩, 0, 0⟩)] 1 4 0 O_RDONLY
      (fun _ _ _ => .ok [65, 66])).2.2.2.2 ⟨2, [97], ⟨0, 0, 1⟩, 0, 0⟩ [65, 66]
      (by decide) (by decide) (Or.inl (by decide)) rfl⟩

/-- A concrete virtio device-config function exhibiting the
`read_mount_tag` offset wrap: the u16 at offset 0 is the tag length 256,
config bytes at offsets 0 and 1 read back 88, and every byte at offset 2
and above reads back 65. -/
def mtCfg : Nat → Nat → Nat := fun off n =>
  if n = 2 then 256 else if off ≤ 1 then 88 else 65

set_option maxRecDepth 40000 in
/-- Claim C10: `read_mount_tag` accepts `tag_len = 256` (only 0 and
values above 256 are rejected), computes each per-byte config offset as
`2 + i as u8` in 8-bit arithmetic, so for `i = 254` and `i = 255` the
intended offsets 256 and 257 wrap to 0 and 1 (in release mode; in debug
mode the u8 addition would panic), while offsets for `i < 254` are
unaffected; consequently on a device whose config holds 65 at every tag
offset the function returns two bytes read from offsets 0 and 1 instead
of the bytes at device-config offsets 2..258. -/
theorem c10_mount_tag_offset_wrap :
    tagLenOk 254 = true
    ∧ tagLenOk 255 = true
    ∧ tagLenOk 256 = true
    ∧ tagLenOk 0 = false
    ∧ tagLenOk 257 = false
    ∧ mountTagConfigOffset 254 = 0
    ∧ mountTagConfigOffset 255 = 1
    ∧ mountTagConfigOffset 254 ≠ 2 + 254
    ∧ mountTagConfigOffset 255 ≠ 2 + 255
    ∧ ((List.range 254).all fun i => mountTagConfigOffset i == 2 + i) = true
    ∧ ((List.range 256).all fun i => mtCfg (2 + i) 1 == 65) = true
    ∧ read_mount_tag mtCfg = List.replicate 254 65 ++ [88, 88]
    ∧ read_mount_tag mtCfg ≠ List.replicate 256 65 := by decide
